import Mathlib

/-!
# Verification of the year-partitioned OHLCV store (`SQL_Interface.py`)

Shallow embedding of the partitioned storage and query-planning engine:

* prices are exact decimals, modelled as rationals (`ℚ`);
* the insert-path encoding `int(p * 10000)` is modelled by `encodePrice`,
  built on `pyInt`, the truncation-toward-zero that Python's `int()`
  performs on an exact numeric value;
* timestamps are modelled by `DT`, a calendar year together with a
  position inside that year, ordered lexicographically;
* the database is an association list from table names (strings, built by
  the `"{symbol}_{year}"` template) to lists of stored rows;
* `pandas_upload`, `insert_data` and `query_one_symbol` follow the three
  methods of the `SQL` class; SQL execution over the generated statement is
  modelled by `runPlan` (a missing table makes the whole statement fail,
  returning `none`), `UNION` by deduplication of the concatenated
  sub-query results, and `ORDER BY Datetime` by insertion sort on the
  timestamp order.
-/

/-- Truncation toward zero of an exact rational, as Python's `int()` does
on an exact numeric value: `Int.tdiv` is T-division. -/
def pyInt (q : ℚ) : ℤ :=
  q.num.tdiv q.den

/-- The insert-path price encoding of `insert_data`:
`(data[column] * 10000).apply(int)`. -/
def encodePrice (p : ℚ) : ℤ :=
  pyInt (p * 10000)

/-- The query-path price decoding of `query_one_symbol`:
`CAST(Open AS DECIMAL) / 10000`, exact decimal division. -/
def decodePrice (n : ℤ) : ℚ :=
  (n : ℚ) / 10000

/-- A timestamp: the calendar year plus a position (e.g. seconds) inside
that year.  `2019-12-31T23:59:59` has `year = 2019` (with a large `sub`),
`2020-01-01T00:00:00` has `year = 2020`, `sub = 0`. -/
structure DT where
  year : Int
  sub : Nat
deriving DecidableEq, Repr

/-- Chronological order on timestamps (lexicographic on year, then
position in the year). -/
def DT.le (a b : DT) : Prop :=
  a.year < b.year ∨ (a.year = b.year ∧ a.sub ≤ b.sub)

instance : DecidableRel DT.le := fun a b =>
  (inferInstance : Decidable (a.year < b.year ∨ (a.year = b.year ∧ a.sub ≤ b.sub)))

/-- Strict chronological order on timestamps. -/
def DT.lt (a b : DT) : Prop :=
  a.year < b.year ∨ (a.year = b.year ∧ a.sub < b.sub)

instance : DecidableRel DT.lt := fun a b =>
  (inferInstance : Decidable (a.year < b.year ∨ (a.year = b.year ∧ a.sub < b.sub)))

/-- A stored (encoded) row of a partition table:
`(Datetime, Open, Close, High, Low, Volume)` with integer prices. -/
structure Row where
  dt : DT
  op : Int
  cl : Int
  hi : Int
  lo : Int
  vol : Int
deriving DecidableEq, Repr

/-- An unencoded row: decimal (exact rational) prices. -/
structure RawRow where
  dt : DT
  op : ℚ
  cl : ℚ
  hi : ℚ
  lo : ℚ
  vol : ℚ
deriving DecidableEq, Repr

/-- Encoding applied by `insert_data` before upload: each of
Open/Low/Close/High is `int(value * 10000)`, Volume is `int(value)`. -/
def encodeRow (r : RawRow) : Row :=
  ⟨r.dt, encodePrice r.op, encodePrice r.cl, encodePrice r.hi, encodePrice r.lo, pyInt r.vol⟩

/-- Decoding applied by the outer SELECT of `query_one_symbol`:
`CAST(c AS DECIMAL) / 10000` on the four prices, Volume unchanged. -/
def decodeRow (r : Row) : RawRow :=
  ⟨r.dt, decodePrice r.op, decodePrice r.cl, decodePrice r.hi, decodePrice r.lo, (r.vol : ℚ)⟩

/-- The database: an association list from table names to stored rows
(`show tables` = the list of keys). -/
abbrev Db := List (String × List Row)

/-- First binding of a table name, `none` when the table does not exist. -/
def lookupTable : Db → String → Option (List Row)
  | [], _ => none
  | (n, rs) :: rest, t => if n = t then some rs else lookupTable rest t

/-- Replace the contents of (the first binding of) an existing table. -/
def setTable : Db → String → List Row → Db
  | [], _, _ => []
  | (n, rs) :: rest, t, newRs =>
    if n = t then (n, newRs) :: rest else (n, rs) :: setTable rest t newRs

/-- The `"{symbol}_{year}"` partition-name template. -/
def tableName (sym : String) (y : Int) : String :=
  sym ++ "_" ++ toString y

/-- `Datetime BETWEEN lo AND hi` (inclusive on both ends). -/
def inRange (lo hi : DT) (r : Row) : Bool :=
  decide (DT.le lo r.dt) && decide (DT.le r.dt hi)

/-- The minimum `Datetime` of a batch (`data.Datetime.min()`);
meaningful only for non-empty batches. -/
def minDT : List Row → DT
  | [] => ⟨0, 0⟩
  | r :: rs => rs.foldl (fun acc x => if DT.le x.dt acc then x.dt else acc) r.dt

/-- The maximum `Datetime` of a batch (`data.Datetime.max()`);
meaningful only for non-empty batches. -/
def maxDT : List Row → DT
  | [] => ⟨0, 0⟩
  | r :: rs => rs.foldl (fun acc x => if DT.le acc x.dt then x.dt else acc) r.dt

/-- `drop_duplicates(keep=False)`: keep exactly the rows whose full tuple
occurs exactly once in the frame, preserving order. -/
def dropDupKeepFalse (l : List Row) : List Row :=
  l.filter (fun r => l.count r == 1)

/-- `pandas_upload`: if the table does not exist, create it and append the
whole batch; otherwise fetch the `DISTINCT` existing rows whose `Datetime`
lies between the batch min and max, concatenate `[data, existing,
existing]`, apply `drop_duplicates(keep=False)`, and append the survivors.
Returns the new database and the number of appended rows. -/
def pandas_upload (db : Db) (data : List Row) (t : String) : Db × Nat :=
  match lookupTable db t with
  | none => ((t, data) :: db, data.length)
  | some ex =>
    let exd := (ex.filter (inRange (minDT data) (maxDT data))).dedup
    let surv := dropDupKeepFalse (data ++ exd ++ exd)
    (setTable db t (ex ++ surv), surv.length)

/-- The ascending list of distinct calendar years of a batch
(`groupby(pd.Grouper(freq="Y"))` iterates the non-empty year groups in
ascending order). -/
def yearsOf (enc : List Row) : List Int :=
  List.insertionSort (fun a b => a ≤ b) ((enc.map (fun r => r.dt.year)).dedup)

/-- One year of the `insert_data` loop: upload the year group of the
encoded batch to the `"{symbol}_{year}"` table, accumulating the appended
row count. -/
def insertStep (sym : String) (enc : List Row) (acc : Db × Nat) (y : Int) : Db × Nat :=
  let r := pandas_upload acc.1 (enc.filter (fun x => x.dt.year == y)) (tableName sym y)
  (r.1, acc.2 + r.2)

/-- `insert_data`: encode the batch, group it by the calendar year of the
timestamp, and upload each group to the `"{symbol}_{year}"` table.
Returns the new database and the total number of appended rows. -/
def insert_data (db : Db) (sym : String) (data : List RawRow) : Db × Nat :=
  let enc := data.map encodeRow
  (yearsOf enc).foldl (insertStep sym enc) (db, 0)

/-- One sub-query of the generated SQL statement: a table and an optional
`BETWEEN` predicate. -/
structure SubQ where
  table : String
  pred : Option (DT × DT)
deriving DecidableEq, Repr

/-- Python's `range(a, b)` as a list of integers. -/
def pyRange (a b : Int) : List Int :=
  (List.range (b - a).toNat).map (fun (i : Nat) => a + (i : Int))

/-- The list of sub-queries `query_one_symbol` unions together: the start
year with `BETWEEN start AND end`, every year of
`range(start_year + 1, end_year)` with no predicate, and then always the
end year with `BETWEEN start AND end` (a duplicate sub-query when the two
years coincide). -/
def buildPlan (sym : String) (s e : DT) : List SubQ :=
  SubQ.mk (tableName sym s.year) (some (s, e)) ::
    ((pyRange (s.year + 1) e.year).map (fun y => SubQ.mk (tableName sym y) none) ++
      [SubQ.mk (tableName sym e.year) (some (s, e))])

/-- Run one sub-query: fails (`none`) when the table does not exist,
otherwise returns the stored rows, filtered by the predicate if any. -/
def runSubQ (db : Db) (q : SubQ) : Option (List Row) :=
  match lookupTable db q.table with
  | none => none
  | some rows =>
    match q.pred with
    | none => some rows
    | some (a, b) => some (rows.filter (inRange a b))

/-- Run every sub-query of the statement: a single missing table makes the
whole statement fail, as MySQL rejects a statement referencing a
non-existent table. -/
def runPlan (db : Db) : List SubQ → Option (List Row)
  | [] => some []
  | q :: qs =>
    match runSubQ db q, runPlan db qs with
    | some rs, some rest => some (rs ++ rest)
    | _, _ => none

/-- Timestamp order on stored rows (`ORDER BY X.Datetime`). -/
def rowLe (a b : Row) : Prop :=
  DT.le a.dt b.dt

instance : DecidableRel rowLe := fun a b =>
  (inferInstance : Decidable (DT.le a.dt b.dt))

instance : IsTotal Row rowLe :=
  ⟨fun a b => by
    rcases lt_trichotomy a.dt.year b.dt.year with h | h | h
    · exact Or.inl (Or.inl h)
    · rcases Nat.le_total a.dt.sub b.dt.sub with hs | hs
      · exact Or.inl (Or.inr ⟨h, hs⟩)
      · exact Or.inr (Or.inr ⟨h.symm, hs⟩)
    · exact Or.inr (Or.inl h)⟩

instance : IsTrans Row rowLe :=
  ⟨fun a b c h1 h2 => by
    rcases h1 with h1 | ⟨h1, h1s⟩ <;> rcases h2 with h2 | ⟨h2, h2s⟩
    · exact Or.inl (lt_trans h1 h2)
    · exact Or.inl (h2 ▸ h1)
    · exact Or.inl (h1 ▸ h2)
    · exact Or.inr ⟨h1.trans h2, h1s.trans h2s⟩⟩

/-- `query_one_symbol`: build the per-year plan, run it (`UNION` of the
sub-queries, i.e. duplicate rows removed), order by `Datetime`, and decode
the prices back to decimals. -/
def query_one_symbol (db : Db) (sym : String) (s e : DT) : Option (List RawRow) :=
  (runPlan db (buildPlan sym s e)).map
    (fun rows => (List.insertionSort rowLe rows.dedup).map decodeRow)

/-- The rows of the incoming batch that survive the concat-and-drop dedup of
`pandas_upload` against an existing table: the rows occurring exactly once
in the batch and matching no existing row within the batch timestamp range. -/
def survivors (data ex : List Row) : List Row :=
  data.filter (fun r =>
    data.count r == 1 && !(decide (r ∈ ex.filter (inRange (minDT data) (maxDT data)))))

/-- Modelled from the spec: the multiset subtraction the spec prescribes
for dedup — each existing record removes at most one matching incoming
record, so `k` existing duplicates remove up to `k` matching copies. -/
def specMultisetSubtract (data existing : List Row) : List Row :=
  existing.foldl (fun acc r => acc.erase r) data

/-- Modelled from the spec: rounding half-away-from-zero, the rounding the
spec claims for `encode`. -/
def specRoundHalfAway (q : ℚ) : ℤ :=
  if 0 ≤ q then ⌊q + 1 / 2⌋ else ⌈q - 1 / 2⌉

/-- A concrete stored row used in counterexamples. -/
def rcx : Row := ⟨⟨2020, 0⟩, 1, 1, 1, 1, 100⟩

/-- A second concrete stored row, distinct from `rcx`. -/
def rcy : Row := ⟨⟨2020, 5⟩, 2, 2, 2, 2, 50⟩

/-- A concrete one-record batch used to witness idempotent insertion. -/
def dW : List RawRow := [⟨⟨2020, 0⟩, 1, 1, 1, 1, 5⟩]

/-- A concrete raw record in 2019 (last second of the year). -/
def rW1 : RawRow := ⟨⟨2019, 31535999⟩, 1, 1, 1, 1, 3⟩

/-- A concrete raw record in 2020 (first second of the year). -/
def rW2 : RawRow := ⟨⟨2020, 0⟩, 2, 2, 2, 2, 4⟩

/-- A concrete timestamp for 2018-06-01. -/
def s6 : DT := ⟨2018, 151⟩

/-- A concrete timestamp for 2020-03-01. -/
def e6 : DT := ⟨2020, 60⟩

/-- A concrete stored row in the 2018 partition. -/
def r2018 : Row := ⟨⟨2018, 10⟩, 7, 7, 7, 7, 1⟩

/-- A database holding only the 2018 partition of symbol `S`. -/
def dbC3 : Db := [("S_2018", [r2018])]

/-- Another concrete stored row in a 2018 partition. -/
def r18b : Row := ⟨⟨2018, 3⟩, 1, 1, 1, 1, 7⟩

/-- A database holding the 2018 and 2020 partitions of symbol `S`. -/
def dbC7 : Db := [("S_2018", [r18b]), ("S_2020", [])]

/-- A database holding two empty partitions of symbol `R`. -/
def dbC7w : Db := [("R_2021", []), ("R_2019", [])]

/-- A concrete stored row, chronologically after `rqb`. -/
def rqa : Row := ⟨⟨2020, 8⟩, 3, 3, 3, 3, 1⟩

/-- A concrete stored row, chronologically before `rqa`. -/
def rqb : Row := ⟨⟨2020, 1⟩, 2, 2, 2, 2, 9⟩

/-- A database whose 2020 partition stores two rows out of order. -/
def dbC9 : Db := [("Q_2020", [rqa, rqb])]

/-- A concrete stored row, duplicated in `dbC10`. -/
def rz : Row := ⟨⟨2021, 2⟩, 4, 4, 4, 4, 6⟩

/-- A database whose 2021 partition stores the same row twice. -/
def dbC10 : Db := [("Z_2021", [rz, rz])]

theorem DT.le_refl (a : DT) : DT.le a a := Or.inr ⟨rfl, Nat.le_refl _⟩

theorem DT.le_trans {a b c : DT} (h1 : DT.le a b) (h2 : DT.le b c) : DT.le a c := by
  rcases h1 with h1 | ⟨h1, h1s⟩ <;> rcases h2 with h2 | ⟨h2, h2s⟩
  · exact Or.inl (lt_trans h1 h2)
  · exact Or.inl (h2 ▸ h1)
  · exact Or.inl (h1 ▸ h2)
  · exact Or.inr ⟨h1.trans h2, h1s.trans h2s⟩

theorem DT.le_total (a b : DT) : DT.le a b ∨ DT.le b a := by
  rcases lt_trichotomy a.year b.year with h | h | h
  · exact Or.inl (Or.inl h)
  · rcases Nat.le_total a.sub b.sub with hs | hs
    · exact Or.inl (Or.inr ⟨h, hs⟩)
    · exact Or.inr (Or.inr ⟨h.symm, hs⟩)
  · exact Or.inr (Or.inl h)

theorem DT.not_le_of_lt {a b : DT} (h : DT.lt a b) : ¬ DT.le b a := by
  rcases h with h | ⟨h, hsub⟩ <;> rintro (hl | ⟨hy, hs⟩) <;> omega

theorem pyInt_intCast (m : ℤ) : pyInt (m : ℚ) = m := by
  simp [pyInt, Rat.num_intCast, Rat.den_intCast]

theorem pyInt_eq_floor {q : ℚ} (h : 0 ≤ q) : pyInt q = ⌊q⌋ := by
  rw [Rat.floor_def]
  exact Int.tdiv_eq_ediv (Rat.num_nonneg.mpr h) (Int.ofNat_nonneg _)

theorem pyInt_eq_ceil {q : ℚ} (h : q ≤ 0) : pyInt q = ⌈q⌉ := by
  have h1 : pyInt (-q) = -(pyInt q) := by
    rw [pyInt, pyInt, Rat.num_neg_eq_neg_num, Rat.den_neg_eq_den, Int.neg_tdiv]
  have h2 : pyInt q = -pyInt (-q) := by rw [h1, neg_neg]
  rw [h2, pyInt_eq_floor (neg_nonneg.mpr h), Int.floor_neg, neg_neg]

/-- C1: for every decimal price with at most four fractional digits, i.e.
every `p = m / 10000` with `m : ℤ`, the query-path decoding of the
insert-path encoding returns exactly `p`: the fixed-point round trip is
the identity on such inputs. -/
theorem round_trip_exact (m : ℤ) :
    decodePrice (encodePrice ((m : ℚ) / 10000)) = (m : ℚ) / 10000 := by
  have h : ((m : ℚ) / 10000) * 10000 = (m : ℚ) := div_mul_cancel₀ _ (by norm_num)
  rw [encodePrice, h, pyInt_intCast]
  rfl

/-- C4 counterexample: the insert-path encoding of the price `3 / 20000 =
0.00015` stores `1`, while rounding `0.00015 * 10000 = 1.5` half away from
zero (as the claim states) gives `2`: the code truncates, it does not
round. -/
theorem encodePrice_not_half_away :
    encodePrice (3 / 20000) = 1 ∧ specRoundHalfAway ((3 / 20000 : ℚ) * 10000) = 2 ∧
      encodePrice (3 / 20000) ≠ specRoundHalfAway ((3 / 20000 : ℚ) * 10000) := by
  have hm : (3 / 20000 : ℚ) * 10000 = 3 / 2 := by norm_num
  have h1 : encodePrice (3 / 20000) = 1 := by
    rw [encodePrice, hm, pyInt_eq_floor (by norm_num)]
    norm_num
  have h2 : specRoundHalfAway ((3 / 20000 : ℚ) * 10000) = 2 := by
    rw [hm, specRoundHalfAway, if_pos (by norm_num)]
    norm_num
  exact ⟨h1, h2, by rw [h1, h2]; decide⟩

/-- C4 amended: the insert-path encoding applied to a decimal price `p` is
the truncation toward zero of `p * 10000` — the floor for non-negative
prices and the ceiling for negative ones — as Python's `int()` computes,
not the half-away-from-zero rounding the claim states. -/
theorem encodePrice_truncates (p : ℚ) :
    (0 ≤ p → encodePrice p = ⌊p * 10000⌋) ∧ (p < 0 → encodePrice p = ⌈p * 10000⌉) := by
  constructor
  · intro h
    exact pyInt_eq_floor (by positivity)
  · intro h
    exact pyInt_eq_ceil (by nlinarith)

/-- Witness for the amended C4 statement at the concrete price `1 / 2`. -/
theorem encodePrice_truncates_witness :
    (0 : ℚ) ≤ 1 / 2 ∧ encodePrice (1 / 2) = ⌊(1 / 2 : ℚ) * 10000⌋ :=
  ⟨by norm_num, (encodePrice_truncates (1 / 2)).1 (by norm_num)⟩

theorem tableName_inj_year (sym : String) {y z : Int} (h : tableName sym y = tableName sym z) :
    toString y = toString z := by
  have hd := congrArg String.data h
  simp only [tableName, String.data_append] at hd
  exact String.ext (List.append_cancel_left hd)

theorem dropDupKeepFalse_concat (data dd : List Row) :
    dropDupKeepFalse (data ++ dd ++ dd) =
      data.filter (fun r => data.count r == 1 && !(decide (r ∈ dd))) := by
  unfold dropDupKeepFalse
  have hcnt : ∀ r : Row, (data ++ dd ++ dd).count r = data.count r + 2 * dd.count r := by
    intro r
    simp only [List.count_append]
    omega
  rw [List.filter_append, List.filter_append]
  have hdd : dd.filter (fun r => (data ++ dd ++ dd).count r == 1) = [] := by
    rw [List.filter_eq_nil_iff]
    intro r hr
    have h1 : 0 < dd.count r := List.count_pos_iff.mpr hr
    simp only [hcnt r, beq_iff_eq]
    omega
  rw [hdd, List.append_nil, List.append_nil]
  apply List.filter_congr
  intro r hr
  rw [hcnt r]
  by_cases hm : r ∈ dd
  · have h1 : 0 < dd.count r := List.count_pos_iff.mpr hm
    have h2 : 0 < data.count r := List.count_pos_iff.mpr hr
    have hne : data.count r + 2 * dd.count r ≠ 1 := by omega
    simp [hm, hne]
  · have h0 : dd.count r = 0 := List.count_eq_zero.mpr hm
    simp [hm, h0]

theorem foldl_min_le (l : List Row) : ∀ acc : DT,
    DT.le (l.foldl (fun a x => if DT.le x.dt a then x.dt else a) acc) acc ∧
    ∀ r ∈ l, DT.le (l.foldl (fun a x => if DT.le x.dt a then x.dt else a) acc) r.dt := by
  induction l with
  | nil =>
    intro acc
    refine ⟨DT.le_refl acc, ?_⟩
    intro r hr
    cases hr
  | cons x xs ih =>
    intro acc
    rw [List.foldl_cons]
    have h1 : DT.le (if DT.le x.dt acc then x.dt else acc) acc := by
      split
      · assumption
      · exact DT.le_refl acc
    have h2 : DT.le (if DT.le x.dt acc then x.dt else acc) x.dt := by
      split
      · exact DT.le_refl x.dt
      · rcases DT.le_total x.dt acc with h | h
        · contradiction
        · exact h
    obtain ⟨ha, hb⟩ := ih (if DT.le x.dt acc then x.dt else acc)
    refine ⟨DT.le_trans ha h1, ?_⟩
    intro r hr
    rcases List.mem_cons.mp hr with rfl | hr2
    · exact DT.le_trans ha h2
    · exact hb r hr2

theorem foldl_le_max (l : List Row) : ∀ acc : DT,
    DT.le acc (l.foldl (fun a x => if DT.le a x.dt then x.dt else a) acc) ∧
    ∀ r ∈ l, DT.le r.dt (l.foldl (fun a x => if DT.le a x.dt then x.dt else a) acc) := by
  induction l with
  | nil =>
    intro acc
    refine ⟨DT.le_refl acc, ?_⟩
    intro r hr
    cases hr
  | cons x xs ih =>
    intro acc
    rw [List.foldl_cons]
    have h1 : DT.le acc (if DT.le acc x.dt then x.dt else acc) := by
      split
      · assumption
      · exact DT.le_refl acc
    have h2 : DT.le x.dt (if DT.le acc x.dt then x.dt else acc) := by
      split
      · exact DT.le_refl x.dt
      · rcases DT.le_total acc x.dt with h | h
        · contradiction
        · exact h
    obtain ⟨ha, hb⟩ := ih (if DT.le acc x.dt then x.dt else acc)
    refine ⟨DT.le_trans h1 ha, ?_⟩
    intro r hr
    rcases List.mem_cons.mp hr with rfl | hr2
    · exact DT.le_trans h2 ha
    · exact hb r hr2

theorem minDT_le {l : List Row} {r : Row} (h : r ∈ l) : DT.le (minDT l) r.dt := by
  match l, h with
  | x :: xs, h =>
    obtain ⟨ha, hb⟩ := foldl_min_le xs x.dt
    rcases List.mem_cons.mp h with rfl | h2
    · exact ha
    · exact hb r h2

theorem le_maxDT {l : List Row} {r : Row} (h : r ∈ l) : DT.le r.dt (maxDT l) := by
  match l, h with
  | x :: xs, h =>
    obtain ⟨ha, hb⟩ := foldl_le_max xs x.dt
    rcases List.mem_cons.mp h with rfl | h2
    · exact ha
    · exact hb r h2

theorem inRange_self {l : List Row} {r : Row} (h : r ∈ l) :
    inRange (minDT l) (maxDT l) r = true := by
  unfold inRange
  rw [Bool.and_eq_true, decide_eq_true_eq, decide_eq_true_eq]
  exact ⟨minDT_le h, le_maxDT h⟩

theorem setTable_self : ∀ (db : Db) (t : String) (ex : List Row),
    lookupTable db t = some ex → setTable db t ex = db
  | [], t, ex, h => by simp [lookupTable] at h
  | (n, rs) :: rest, t, ex, h => by
    by_cases hn : n = t
    · simp only [lookupTable, if_pos hn, Option.some.injEq] at h
      simp [setTable, hn, h]
    · simp only [lookupTable, if_neg hn] at h
      simp [setTable, hn, setTable_self rest t ex h]

theorem pandas_upload_existing (db : Db) (t : String) (data ex : List Row)
    (h : lookupTable db t = some ex) :
    pandas_upload db data t =
      (setTable db t (ex ++ survivors data ex), (survivors data ex).length) := by
  have hs : dropDupKeepFalse
      (data ++ (ex.filter (inRange (minDT data) (maxDT data))).dedup ++
        (ex.filter (inRange (minDT data) (maxDT data))).dedup) = survivors data ex := by
    rw [dropDupKeepFalse_concat]
    unfold survivors
    apply List.filter_congr
    intro r hr
    have hmem : decide (r ∈ (ex.filter (inRange (minDT data) (maxDT data))).dedup) =
        decide (r ∈ ex.filter (inRange (minDT data) (maxDT data))) :=
      decide_eq_decide.mpr List.mem_dedup
    rw [hmem]
  simp only [pandas_upload, h, hs]

theorem pandas_upload_same (db : Db) (t : String) (ex : List Row)
    (h : lookupTable db t = some ex) :
    pandas_upload db ex t = (db, 0) := by
  rw [pandas_upload_existing db t ex ex h]
  have hsurv : survivors ex ex = [] := by
    unfold survivors
    rw [List.filter_eq_nil_iff]
    intro r hr
    have hmem : r ∈ ex.filter (inRange (minDT ex) (maxDT ex)) :=
      List.mem_filter.mpr ⟨hr, inRange_self hr⟩
    simp [hmem]
  rw [hsurv, List.append_nil, setTable_self db t ex h]
  rfl

/-- C2 counterexample: against an existing (empty) partition, a batch made
of two identical records loses both copies — the concat-and-drop dedup of
`pandas_upload` appends nothing — while the multiset subtraction the claim
describes would keep both copies, as no existing record matches them. -/
theorem dedup_not_multiset_subtraction :
    pandas_upload [("T", [])] [rcx, rcx] "T" = ([("T", [])], 0) ∧
      specMultisetSubtract [rcx, rcx] [] = [rcx, rcx] :=
  ⟨by decide, by decide⟩

/-- C2 amended: when the target table exists, `pandas_upload` appends
exactly the incoming records whose full tuple occurs exactly once in the
incoming batch and matches no existing record within the batch timestamp
range, in batch order — so a single existing match removes all matching
incoming copies, and records duplicated inside the batch are all removed
even when the partition holds no matching record. -/
theorem pandas_upload_dedup_semantics (db : Db) (t : String) (data ex : List Row)
    (h : lookupTable db t = some ex) :
    (pandas_upload db data t).1 = setTable db t (ex ++ survivors data ex) ∧
    (pandas_upload db data t).2 = (survivors data ex).length := by
  rw [pandas_upload_existing db t data ex h]
  exact ⟨rfl, rfl⟩

/-- Witness for the amended C2 statement: uploading `[rcx, rcy]` against a
table that already stores `[rcx]`. -/
theorem pandas_upload_dedup_semantics_witness :
    lookupTable [("T", [rcx])] "T" = some [rcx] ∧
    (pandas_upload [("T", [rcx])] [rcx, rcy] "T").1
      = setTable [("T", [rcx])] "T" ([rcx] ++ survivors [rcx, rcy] [rcx]) ∧
    (pandas_upload [("T", [rcx])] [rcx, rcy] "T").2
      = (survivors [rcx, rcy] [rcx]).length := by
  have h := pandas_upload_dedup_semantics [("T", [rcx])] "T" [rcx, rcy] [rcx] (by decide)
  exact ⟨by decide, h.1, h.2⟩

theorem lookupTable_cons_ne {n t : String} (h : n ≠ t) (rs : List Row) (db : Db) :
    lookupTable ((n, rs) :: db) t = lookupTable db t := by
  simp [lookupTable, h]

theorem yearsOf_nodup (enc : List Row) : (yearsOf enc).Nodup :=
  ((List.perm_insertionSort _ _).nodup_iff).mpr (List.nodup_dedup _)

theorem mem_yearsOf {enc : List Row} {y : Int} :
    y ∈ yearsOf enc ↔ y ∈ enc.map (fun r => r.dt.year) := by
  unfold yearsOf
  rw [(List.perm_insertionSort _ _).mem_iff, List.mem_dedup]

theorem foldl_insertStep_fresh (sym : String) (enc : List Row) :
    ∀ (ys : List Int) (db : Db) (c : Nat),
      (∀ y ∈ ys, lookupTable db (tableName sym y) = none) →
      (∀ y ∈ ys, ∀ z ∈ ys, tableName sym y = tableName sym z → y = z) →
      ys.Nodup →
      (∀ y ∈ ys, lookupTable (ys.foldl (insertStep sym enc) (db, c)).1 (tableName sym y)
          = some (enc.filter (fun x => x.dt.year == y))) ∧
      (∀ t, (∀ y ∈ ys, t ≠ tableName sym y) →
          lookupTable (ys.foldl (insertStep sym enc) (db, c)).1 t = lookupTable db t) ∧
      (ys.foldl (insertStep sym enc) (db, c)).2
        = c + (ys.map (fun y => (enc.filter (fun x => x.dt.year == y)).length)).sum := by
  intro ys
  induction ys with
  | nil =>
    intro db c _ _ _
    refine ⟨?_, ?_, by simp⟩
    · intro y hy
      cases hy
    · intro t _
      rfl
  | cons y ys ih =>
    intro db c hfresh hinj hnd
    have hy0 : lookupTable db (tableName sym y) = none := hfresh y (List.mem_cons_self y ys)
    have hstep : insertStep sym enc (db, c) y
        = ((tableName sym y, enc.filter (fun x => x.dt.year == y)) :: db,
           c + (enc.filter (fun x => x.dt.year == y)).length) := by
      simp [insertStep, pandas_upload, hy0]
    rw [List.foldl_cons, hstep]
    have hynotin : y ∉ ys := (List.nodup_cons.mp hnd).1
    have hne : ∀ z ∈ ys, tableName sym z ≠ tableName sym y := by
      intro z hz he
      have hzy : z = y :=
        hinj z (List.mem_cons_of_mem y hz) y (List.mem_cons_self y ys) he
      rw [hzy] at hz
      exact hynotin hz
    have hfresh2 : ∀ z ∈ ys,
        lookupTable ((tableName sym y, enc.filter (fun x => x.dt.year == y)) :: db)
          (tableName sym z) = none := by
      intro z hz
      rw [lookupTable_cons_ne (Ne.symm (hne z hz))]
      exact hfresh z (List.mem_cons_of_mem y hz)
    have hinj2 : ∀ a ∈ ys, ∀ b ∈ ys, tableName sym a = tableName sym b → a = b :=
      fun a ha b hb =>
        hinj a (List.mem_cons_of_mem y ha) b (List.mem_cons_of_mem y hb)
    obtain ⟨A, B, C⟩ :=
      ih ((tableName sym y, enc.filter (fun x => x.dt.year == y)) :: db)
        (c + (enc.filter (fun x => x.dt.year == y)).length) hfresh2 hinj2
        (List.nodup_cons.mp hnd).2
    refine ⟨?_, ?_, ?_⟩
    · intro z hz
      rcases List.mem_cons.mp hz with rfl | hz2
      · rw [B (tableName sym z) (fun a ha => Ne.symm (hne a ha))]
        simp [lookupTable]
      · exact A z hz2
    · intro t ht
      rw [B t (fun a ha => ht a (List.mem_cons_of_mem y ha))]
      exact lookupTable_cons_ne (Ne.symm (ht y (List.mem_cons_self y ys))) _ _
    · rw [C]
      simp only [List.map_cons, List.sum_cons]
      omega

theorem foldl_insertStep_noop (sym : String) (enc : List Row) :
    ∀ (ys : List Int) (db : Db) (c : Nat),
      (∀ y ∈ ys, lookupTable db (tableName sym y)
          = some (enc.filter (fun x => x.dt.year == y))) →
      ys.foldl (insertStep sym enc) (db, c) = (db, c) := by
  intro ys
  induction ys with
  | nil =>
    intro db c _
    rfl
  | cons y ys ih =>
    intro db c hex
    rw [List.foldl_cons]
    have hstep : insertStep sym enc (db, c) y = (db, c) := by
      have h := pandas_upload_same db (tableName sym y)
        (enc.filter (fun x => x.dt.year == y)) (hex y (List.mem_cons_self y ys))
      simp [insertStep, h]
    rw [hstep]
    exact ih db c (fun z hz => hex z (List.mem_cons_of_mem y hz))

theorem sum_map_indicator (v : Int) (f : Int → Nat) :
    ∀ ys : List Int,
      (ys.map (fun y => if v == y then f y + 1 else f y)).sum
        = (ys.map f).sum + ys.count v := by
  intro ys
  induction ys with
  | nil => simp
  | cons y ys ih =>
    simp only [List.map_cons, List.sum_cons, List.count_cons, ih]
    by_cases h : v = y
    · subst h
      simp
      omega
    · have hb : (v == y) = false := beq_eq_false_iff_ne.mpr h
      simp [hb, h, Ne.symm h]
      omega

theorem length_eq_sum_groups (ys : List Int) :
    ∀ enc : List Row, ys.Nodup → (∀ x ∈ enc, x.dt.year ∈ ys) →
      (ys.map (fun y => (enc.filter (fun x => x.dt.year == y)).length)).sum
        = enc.length := by
  intro enc
  induction enc with
  | nil =>
    intro _ _
    simp
  | cons x xs ih =>
    intro hnd hcov
    have hx : x.dt.year ∈ ys := hcov x (List.mem_cons_self x xs)
    have hcov2 : ∀ r ∈ xs, r.dt.year ∈ ys := fun r hr => hcov r (List.mem_cons_of_mem x hr)
    have hmap : ys.map (fun y => ((x :: xs).filter (fun r => r.dt.year == y)).length)
        = ys.map (fun y => if x.dt.year == y
            then (xs.filter (fun r => r.dt.year == y)).length + 1
            else (xs.filter (fun r => r.dt.year == y)).length) := by
      apply List.map_congr_left
      intro y _
      rw [List.filter_cons]
      by_cases h : (x.dt.year == y) = true
      · rw [if_pos h, if_pos h, List.length_cons]
      · rw [if_neg h, if_neg h]
    rw [hmap, sum_map_indicator x.dt.year
        (fun y => (xs.filter (fun r => r.dt.year == y)).length), ih hnd hcov2,
      List.count_eq_one_of_mem hnd hx, List.length_cons]

/-- C5: starting from a database in which no touched partition exists, the
first insertion of a non-empty batch appends all of its records (appended
row count equals the batch length), and re-inserting the exact same batch
appends nothing (count `0`, so all `length batch` records are skipped) and
leaves the database exactly as it was after the first insertion. -/
theorem insert_data_idempotent (db : Db) (sym : String) (data : List RawRow)
    (_hne : data ≠ [])
    (hfresh : ∀ y ∈ yearsOf (data.map encodeRow), lookupTable db (tableName sym y) = none)
    (hinj : ∀ y ∈ yearsOf (data.map encodeRow), ∀ z ∈ yearsOf (data.map encodeRow),
        tableName sym y = tableName sym z → y = z) :
    (insert_data db sym data).2 = data.length ∧
      insert_data (insert_data db sym data).1 sym data = ((insert_data db sym data).1, 0) := by
  obtain ⟨A, B, C⟩ := foldl_insertStep_fresh sym (data.map encodeRow)
    (yearsOf (data.map encodeRow)) db 0 hfresh hinj (yearsOf_nodup _)
  have hcov : ∀ x ∈ data.map encodeRow, x.dt.year ∈ yearsOf (data.map encodeRow) :=
    fun x hx => mem_yearsOf.mpr (List.mem_map_of_mem _ hx)
  constructor
  · show ((yearsOf (data.map encodeRow)).foldl
      (insertStep sym (data.map encodeRow)) (db, 0)).2 = data.length
    rw [C, length_eq_sum_groups _ _ (yearsOf_nodup _) hcov]
    simp
  · show (yearsOf (data.map encodeRow)).foldl (insertStep sym (data.map encodeRow))
      ((insert_data db sym data).1, 0) = ((insert_data db sym data).1, 0)
    exact foldl_insertStep_noop sym _ _ _ 0 A

/-- Witness for C5: inserting the one-record batch `dW` twice into an
empty database under symbol `A`. -/
theorem insert_data_idempotent_witness :
    dW ≠ [] ∧ (insert_data [] "A" dW).2 = dW.length ∧
      insert_data (insert_data [] "A" dW).1 "A" dW = ((insert_data [] "A" dW).1, 0) := by
  have h := insert_data_idempotent [] "A" dW (by decide)
    (fun y hy => rfl) (by decide)
  exact ⟨by decide, h.1, h.2⟩

/-- C8: a record timestamped in calendar year 2019 (even its last second)
and one timestamped in 2020 (even its first second) are routed by
`insert_data` to the partitions named `{sym}_2019` and `{sym}_2020`
respectively. -/
theorem year_partition_routing (sym : String) (r1 r2 : RawRow)
    (h1 : r1.dt.year = 2019) (h2 : r2.dt.year = 2020) :
    lookupTable (insert_data [] sym [r1, r2]).1 (tableName sym 2019) = some [encodeRow r1] ∧
    lookupTable (insert_data [] sym [r1, r2]).1 (tableName sym 2020) = some [encodeRow r2] := by
  have hnames : tableName sym 2019 ≠ tableName sym 2020 := by
    intro h
    exact absurd (tableName_inj_year sym h) (by decide)
  have hmap : ([r1, r2].map encodeRow).map (fun r => r.dt.year) = [2019, 2020] := by
    simp [encodeRow, h1, h2]
  have hy : yearsOf ([r1, r2].map encodeRow) = [2019, 2020] := by
    unfold yearsOf
    rw [hmap]
    decide
  have hgroup1 : [encodeRow r1, encodeRow r2].filter (fun x => x.dt.year == (2019 : Int))
      = [encodeRow r1] := by
    simp [encodeRow, h1, h2]
  have hgroup2 : [encodeRow r1, encodeRow r2].filter (fun x => x.dt.year == (2020 : Int))
      = [encodeRow r2] := by
    simp [encodeRow, h1, h2]
  have hstep1 : insertStep sym ([r1, r2].map encodeRow) ([], 0) 2019
      = ([(tableName sym 2019, [encodeRow r1])], 1) := by
    simp [insertStep, pandas_upload, lookupTable, hgroup1]
  have hstep2 : insertStep sym ([r1, r2].map encodeRow)
        ([(tableName sym 2019, [encodeRow r1])], 1) 2020
      = ([(tableName sym 2020, [encodeRow r2]),
          (tableName sym 2019, [encodeRow r1])], 2) := by
    simp [insertStep, pandas_upload, lookupTable, hnames, hgroup2]
  show lookupTable ((yearsOf ([r1, r2].map encodeRow)).foldl
      (insertStep sym ([r1, r2].map encodeRow)) ([], 0)).1 (tableName sym 2019)
      = some [encodeRow r1] ∧
    lookupTable ((yearsOf ([r1, r2].map encodeRow)).foldl
      (insertStep sym ([r1, r2].map encodeRow)) ([], 0)).1 (tableName sym 2020)
      = some [encodeRow r2]
  rw [hy, List.foldl_cons, hstep1, List.foldl_cons, hstep2, List.foldl_nil]
  constructor
  · rw [lookupTable, if_neg (Ne.symm hnames), lookupTable, if_pos rfl]
  · rw [lookupTable, if_pos rfl]

/-- Witness for C8: the records `rW1` (2019-12-31T23:59:59) and `rW2`
(2020-01-01T00:00:00) land in `SYM_2019` and `SYM_2020`. -/
theorem year_partition_routing_witness :
    rW1.dt.year = 2019 ∧ rW2.dt.year = 2020 ∧
    lookupTable (insert_data [] "SYM" [rW1, rW2]).1 (tableName "SYM" 2019)
      = some [encodeRow rW1] ∧
    lookupTable (insert_data [] "SYM" [rW1, rW2]).1 (tableName "SYM" 2020)
      = some [encodeRow rW2] := by
  have h := year_partition_routing "SYM" rW1 rW2 rfl rfl
  exact ⟨rfl, rfl, h.1, h.2⟩

theorem pyRange_succ_right (a b : Int) (h : a ≤ b) :
    pyRange a (b + 1) = pyRange a b ++ [b] := by
  unfold pyRange
  have h1 : (b + 1 - a).toNat = (b - a).toNat + 1 := by omega
  rw [h1, List.range_succ, List.map_append]
  congr 1
  simp only [List.map_cons, List.map_nil]
  congr 1
  omega

theorem pyRange_cons (a b : Int) (h : a < b) :
    pyRange a b = a :: pyRange (a + 1) b := by
  unfold pyRange
  have h1 : (b - a).toNat = (b - (a + 1)).toNat + 1 := by omega
  rw [h1, List.range_succ_eq_map, List.map_cons, List.map_map]
  congr 1
  · omega
  · apply List.map_congr_left
    intro i _
    simp only [Function.comp_apply]
    omega

theorem pyRange_nil (a b : Int) (h : b ≤ a) : pyRange a b = [] := by
  unfold pyRange
  have h1 : (b - a).toNat = 0 := by omega
  rw [h1]
  rfl

/-- C6 counterexample: for the query from `s6` (2018-06-01) to `e6`
(2020-03-01) the generated plan reads the 2018, 2019 and 2020 partitions,
but the 2018 sub-query's predicate is `BETWEEN s6 AND e6` — its upper
bound is the end date itself, a timestamp in year 2020, not the
end-of-2018 boundary the claim states — and symmetrically the 2020
sub-query's lower bound is `s6`, in year 2018, not the start-of-2020
boundary. -/
theorem plan_uses_full_range_cx :
    (buildPlan "S" s6 e6).map SubQ.pred = [some (s6, e6), none, some (s6, e6)] ∧
    (buildPlan "S" s6 e6).map SubQ.table = ["S_2018", "S_2019", "S_2020"] ∧
    s6.year = 2018 ∧ e6.year = 2020 :=
  ⟨by decide, by decide, rfl, rfl⟩

/-- C6 amended: for a multi-year range the plan reads exactly one
sub-query per spanned calendar year, in ascending order; the interior
years carry no predicate, while the first and the last year each carry the
predicate `BETWEEN start AND end` with the full range endpoints, not
endpoints tightened to the year boundary. -/
theorem plan_shape (sym : String) (s e : DT) (h : s.year < e.year) :
    (buildPlan sym s e).map SubQ.table = (pyRange s.year (e.year + 1)).map (tableName sym) ∧
    (buildPlan sym s e).map SubQ.pred
      = some (s, e) :: ((pyRange (s.year + 1) e.year).map (fun _ => none) ++ [some (s, e)]) := by
  constructor
  · rw [pyRange_succ_right s.year e.year (le_of_lt h), pyRange_cons s.year e.year h]
    simp [buildPlan, List.map_append, List.map_map, Function.comp]
  · have hmid : (pyRange (s.year + 1) e.year).map
        (SubQ.pred ∘ fun y => SubQ.mk (tableName sym y) none)
        = (pyRange (s.year + 1) e.year).map (fun _ => (none : Option (DT × DT))) :=
      List.map_congr_left (fun y _ => rfl)
    simp only [buildPlan, List.map_cons, List.map_append, List.map_map, List.map_nil, hmid]

/-- Witness for the amended C6 statement at the 2018-06-01 to 2020-03-01
range of the claim. -/
theorem plan_shape_witness :
    s6.year < e6.year ∧
    (buildPlan "S" s6 e6).map SubQ.table
      = (pyRange s6.year (e6.year + 1)).map (tableName "S") ∧
    (buildPlan "S" s6 e6).map SubQ.pred
      = some (s6, e6) :: ((pyRange (s6.year + 1) e6.year).map (fun _ => none)
          ++ [some (s6, e6)]) := by
  have h := plan_shape "S" s6 e6 (by decide)
  exact ⟨by decide, h.1, h.2⟩

theorem runPlan_eq_none_of_missing (db : Db) :
    ∀ qs : List SubQ, (∃ q ∈ qs, lookupTable db q.table = none) → runPlan db qs = none := by
  intro qs
  induction qs with
  | nil =>
    rintro ⟨q, hq, _⟩
    cases hq
  | cons q qs ih =>
    rintro ⟨p, hp, hnone⟩
    rcases List.mem_cons.mp hp with rfl | hp2
    · have hq : runSubQ db p = none := by
        simp [runSubQ, hnone]
      simp [runPlan, hq]
    · have hrest : runPlan db qs = none := ih ⟨p, hp2, hnone⟩
      cases hx : runSubQ db q <;> simp [runPlan, hx, hrest]

/-- C3 counterexample: `dbC3` has a 2018 partition for symbol `S` holding
one row but no 2019 partition; the range query from 2018 into 2019 fails
outright (`none`, the single generated statement references the missing
table) instead of returning the 2018 rows. -/
theorem query_missing_partition_fails_cx :
    query_one_symbol dbC3 "S" ⟨2018, 0⟩ ⟨2019, 5⟩ = none ∧
      lookupTable dbC3 "S_2018" = some [r2018] ∧
      lookupTable dbC3 "S_2019" = none :=
  ⟨by decide, by decide, by decide⟩

/-- C3 amended: whenever any spanned year of the range has no partition
for the symbol, the whole query fails (returns `none`): the missing year
aborts the single UNION statement rather than contributing an empty
sequence. -/
theorem query_missing_partition_fails (db : Db) (sym : String) (s e : DT)
    (h : ∃ q ∈ buildPlan sym s e, lookupTable db q.table = none) :
    query_one_symbol db sym s e = none := by
  unfold query_one_symbol
  rw [runPlan_eq_none_of_missing db _ h]
  rfl

/-- Witness for the amended C3 statement: the 2018-to-2020 query over
`dbC3`, whose 2019 partition is missing, fails. -/
theorem query_missing_partition_fails_witness :
    query_one_symbol dbC3 "S" ⟨2018, 0⟩ ⟨2020, 0⟩ = none :=
  query_missing_partition_fails dbC3 "S" ⟨2018, 0⟩ ⟨2020, 0⟩
    ⟨SubQ.mk "S_2019" none, by decide, by decide⟩

/-- C7 counterexample: with the start date strictly after the end date,
`query_one_symbol` raises nothing: over `dbC7`, whose 2018 and 2020
partitions exist (2018 even holds a row), the reversed query returns
`some []` — an ordinary empty result, not an `InvalidRange` failure. -/
theorem reversed_range_no_error_cx :
    DT.lt ⟨2018, 3⟩ ⟨2020, 7⟩ ∧
    query_one_symbol dbC7 "S" ⟨2020, 7⟩ ⟨2018, 3⟩ = some [] ∧
    lookupTable dbC7 "S_2018" = some [r18b] :=
  ⟨by decide, by decide, by decide⟩

/-- C7 amended: a reversed range (start strictly after end) is not
validated: the query proceeds, and whenever the start-year and end-year
partitions exist it returns `some []`, because the `BETWEEN` predicate
with reversed bounds matches no row and no interior year is spanned. -/
theorem reversed_range_returns_empty (db : Db) (sym : String) (s e : DT)
    (hlt : DT.lt e s) (xs ys : List Row)
    (h1 : lookupTable db (tableName sym s.year) = some xs)
    (h2 : lookupTable db (tableName sym e.year) = some ys) :
    query_one_symbol db sym s e = some [] := by
  have hy : e.year ≤ s.year := by
    rcases hlt with h | ⟨h, _⟩ <;> omega
  have hmids : pyRange (s.year + 1) e.year = [] := pyRange_nil _ _ (by omega)
  have hfilter : ∀ rows : List Row, rows.filter (inRange s e) = [] := by
    intro rows
    rw [List.filter_eq_nil_iff]
    intro r _
    intro hcon
    rw [inRange, Bool.and_eq_true, decide_eq_true_eq, decide_eq_true_eq] at hcon
    exact DT.not_le_of_lt hlt (DT.le_trans hcon.1 hcon.2)
  have hq1 : runSubQ db (SubQ.mk (tableName sym s.year) (some (s, e))) = some [] := by
    simp [runSubQ, h1, hfilter]
  have hq2 : runSubQ db (SubQ.mk (tableName sym e.year) (some (s, e))) = some [] := by
    simp [runSubQ, h2, hfilter]
  unfold query_one_symbol buildPlan
  rw [hmids]
  simp only [List.map_nil, List.nil_append]
  rw [runPlan, hq1, runPlan, hq2, runPlan]
  rfl

/-- Witness for the amended C7 statement: a reversed query over `dbC7w`,
whose 2019 and 2021 partitions exist, returns the empty result. -/
theorem reversed_range_returns_empty_witness :
    DT.lt ⟨2019, 0⟩ ⟨2021, 4⟩ ∧
    query_one_symbol dbC7w "R" ⟨2021, 4⟩ ⟨2019, 0⟩ = some [] :=
  ⟨by decide,
    reversed_range_returns_empty dbC7w "R" ⟨2021, 4⟩ ⟨2019, 0⟩ (by decide) [] []
      (by decide) (by decide)⟩

theorem decodePrice_injective : Function.Injective decodePrice := by
  intro x y h
  unfold decodePrice at h
  rw [div_eq_div_iff (by norm_num) (by norm_num)] at h
  have h2 : (x : ℚ) = y := mul_right_cancel₀ (by norm_num) h
  exact_mod_cast h2

theorem decodeRow_injective : Function.Injective decodeRow := by
  intro a b h
  cases a
  cases b
  simp only [decodeRow, RawRow.mk.injEq] at h
  obtain ⟨h1, h2, h3, h4, h5, h6⟩ := h
  simp only [Row.mk.injEq]
  exact ⟨h1, decodePrice_injective h2, decodePrice_injective h3,
    decodePrice_injective h4, decodePrice_injective h5, Int.cast_injective h6⟩

/-- C9: every successful result of `query_one_symbol` is non-decreasing in
timestamp, for every database — hence regardless of the order in which the
per-partition sub-queries contribute their rows — because the generated
statement ends with `ORDER BY Datetime`. -/
theorem query_output_sorted (db : Db) (sym : String) (s e : DT) (out : List RawRow)
    (h : query_one_symbol db sym s e = some out) :
    out.Pairwise (fun a b => DT.le a.dt b.dt) := by
  unfold query_one_symbol at h
  rcases hrp : runPlan db (buildPlan sym s e) with _ | rows
  · rw [hrp] at h
    cases h
  · rw [hrp] at h
    rw [Option.map_some'] at h
    injection h with h
    subst h
    have hs : List.Sorted rowLe (List.insertionSort rowLe rows.dedup) :=
      List.sorted_insertionSort rowLe rows.dedup
    rw [List.pairwise_map]
    exact hs

/-- Witness for C9: the single-year query over `dbC9`, whose partition
stores its two rows in reverse chronological order, returns them sorted. -/
theorem query_output_sorted_witness :
    ([decodeRow rqb, decodeRow rqa] : List RawRow).Pairwise (fun a b => DT.le a.dt b.dt) :=
  query_output_sorted dbC9 "Q" ⟨2020, 0⟩ ⟨2020, 9⟩ [decodeRow rqb, decodeRow rqa] rfl

/-- C10: every successful result of `query_one_symbol` contains no two
fully identical rows: the sub-queries are combined with `UNION` (set
union), so duplicates stored in a partition — and the repeated sub-query
produced when the start year equals the end year — collapse to a single
occurrence, and the injective price decoding preserves distinctness. -/
theorem query_output_nodup (db : Db) (sym : String) (s e : DT) (out : List RawRow)
    (h : query_one_symbol db sym s e = some out) :
    out.Nodup := by
  unfold query_one_symbol at h
  rcases hrp : runPlan db (buildPlan sym s e) with _ | rows
  · rw [hrp] at h
    cases h
  · rw [hrp] at h
    rw [Option.map_some'] at h
    injection h with h
    subst h
    have hnd : (List.insertionSort rowLe rows.dedup).Nodup :=
      ((List.perm_insertionSort rowLe rows.dedup).nodup_iff).mpr (List.nodup_dedup rows)
    exact hnd.map decodeRow_injective

/-- Witness for C10: the single-year query over `dbC10`, whose partition
stores the same row twice (and whose plan repeats the sub-query, as start
year = end year), returns a single copy. -/
theorem query_output_nodup_witness : ([decodeRow rz] : List RawRow).Nodup :=
  query_output_nodup dbC10 "Z" ⟨2021, 0⟩ ⟨2021, 9⟩ [decodeRow rz] rfl
